import Mathlib

/-!
Verification of the `rollout` rolling-logfile appender (src/main.rs).

The program is embedded shallowly:

* File names and the log-file name prefix are modelled as lists of their
  UTF-8 byte values (`List Nat`), matching Rust's byte-indexed `str`
  slicing (all inputs of interest are ASCII).
* The `VecDeque<u32>` of the `LogManager` is a `List Nat` whose head is
  the front of the deque.
* Filesystem effects are made explicit: `cleanup_old` returns the list of
  deletion attempts it makes, `run`'s state carries the rotated files as
  an association list, and `read`/`write` results are passed as values.
* Rust panics (reversed-range string slicing) are an explicit
  `ScanResult.panic` constructor; `process::exit` codes are explicit
  constructors of the step results.
-/

set_option maxRecDepth 100000

namespace Rollout

/-- Byte value of the ASCII newline character the rotator scans for. -/
def newlineByte : Nat := 10

/-- Byte value of the ASCII dot character. -/
def dotByte : Nat := 46

/-- Byte values of the string `log` (the required file extension). -/
def logExt : List Nat := [108, 111, 103]

/-- Model of `str::starts_with`: the first bytes of `f` are exactly `pre`. -/
def startsWith (f pre : List Nat) : Bool :=
  decide (f.take pre.length = pre)

/-- Positions of dot bytes inside a file name. -/
def dotIdxs (f : List Nat) : List Nat :=
  (List.range f.length).filter (fun i => decide (f.getD i 0 = dotByte))

/-- Model of Rust `Path::extension` on a bare file name: `none` when the
name has no dot or its only dot is the leading byte; otherwise the bytes
after the final dot. -/
def extension (f : List Nat) : Option (List Nat) :=
  match (dotIdxs f).getLast? with
  | none => none
  | some 0 => none
  | some (i + 1) => some (f.drop (i + 2))

/-- Decides whether a byte is an ASCII digit. -/
def isAsciiDigit (b : Nat) : Bool :=
  decide (48 ≤ b) && decide (b ≤ 57)

/-- Numeric value of a digit-byte string. -/
def digitsVal (l : List Nat) : Nat :=
  l.foldl (fun acc b => acc * 10 + (b - 48)) 0

/-- Number of values of a `u32`; machine indices live below this bound. -/
def u32Size : Nat := 2 ^ 32

/-- Model of `str::parse::<u32>()`: an optional leading `+` (byte 43), then
one or more ASCII digits, with the value below `2 ^ 32`. -/
def parseU32 (l : List Nat) : Option Nat :=
  let body := match l with
    | 43 :: rest => rest
    | _ => l
  if !body.isEmpty && body.all isAsciiDigit && decide (digitsVal body < u32Size) then
    some (digitsVal body)
  else none

/-- Outcome of `log_index` on one directory entry: either a Rust panic
(raised by slicing with a reversed range) or the parsed index, if any. -/
inductive ScanResult where
  | panic : ScanResult
  | ok : Option Nat → ScanResult
deriving DecidableEq

/-- Model of `log_index`: an entry whose name starts with the prefix `pfx`
and has extension `log` is sliced as `p[pfx.len() .. p.len() - 4]` and that
substring parsed as a `u32`. The Rust slice panics when `p.len() < 4`
(usize subtraction overflow) or when the start index exceeds the end. -/
def log_index (f : List Nat) (pfx : List Nat) : ScanResult :=
  if startsWith f pfx && decide (extension f = some logExt) then
    if f.length < 4 then ScanResult.panic
    else if f.length - 4 < pfx.length then ScanResult.panic
    else ScanResult.ok (parseU32 ((f.take (f.length - 4)).drop pfx.length))
  else ScanResult.ok none

/-- Directory scan of `LogManager::new`: `filter_map(log_index)` over the
listing; a panic inside `log_index` aborts the whole scan. -/
def scanListing (listing : List (List Nat)) (pfx : List Nat) :
    Except Unit (List Nat) :=
  match listing with
  | [] => Except.ok []
  | f :: rest =>
    match log_index f pfx with
    | ScanResult.panic => Except.error ()
    | ScanResult.ok none => scanListing rest pfx
    | ScanResult.ok (some i) =>
      match scanListing rest pfx with
      | Except.error e => Except.error e
      | Except.ok l => Except.ok (i :: l)

/-- Model of `LogManager::new`: collect the matching indices and sort them
ascending (`sort_unstable`, modelled by insertion sort; on `Nat` with `≤`
any correct sort gives the same list). -/
def lmNew (listing : List (List Nat)) (pfx : List Nat) :
    Except Unit (List Nat) :=
  match scanListing listing pfx with
  | Except.error e => Except.error e
  | Except.ok l => Except.ok (List.insertionSort (· ≤ ·) l)

/-- Model of `LogManager::next_index`: one past the back of the deque
(`0` when empty), pushed onto the back and returned. The increment is a
`u32` addition, so it is taken modulo `2 ^ 32`: at `u32::MAX` a release
build wraps to 0 (a debug build would panic on the overflow). -/
def next_index (l : List Nat) : Nat × List Nat :=
  ((l.getLast?.getD 0 + 1) % u32Size, l ++ [(l.getLast?.getD 0 + 1) % u32Size])

/-- Model of `LogManager::cleanup_old`: pop the front while more than
`toKeep` elements remain; each popped index has its file's deletion
attempted, with the `io::Result` (`res i`, `true` for `Ok`) discarded by
`let _ = ...`. Returns the remaining deque together with the attempts in
order, each paired with its discarded outcome. -/
def cleanup_old (l : List Nat) (toKeep : Nat) (res : Nat → Bool) :
    List Nat × List (Nat × Bool) :=
  match l with
  | [] => ([], [])
  | x :: rest =>
    if rest.length + 1 > toKeep then
      ((cleanup_old rest toKeep res).1, (x, res x) :: (cleanup_old rest toKeep res).2)
    else (x :: rest, [])

/-- Index bookkeeping of `rotate`: `next_logfile` (which calls
`next_index`) and then `cleanup_old`; returns the index assigned to the
renamed file and the deque afterwards. -/
def rotate_lm (k : Nat) (l : List Nat) : Nat × List Nat :=
  ((next_index l).1, (cleanup_old (next_index l).2 k (fun _ => true)).1)

/-- Indices assigned by `n` successive rotations starting from deque `l`. -/
def rotationIndices (k : Nat) : Nat → List Nat → List Nat
  | 0, _ => []
  | n + 1, l => (rotate_lm k l).1 :: rotationIndices k n (rotate_lm k l).2

/-- Configuration consumed by `run`: the rotation threshold in bytes and
the retention count. -/
structure Config where
  sizeBytes : Nat
  toKeep : Nat
deriving DecidableEq

/-- State of `run`: the persistent 1024-byte scratch buffer, the running
byte counter `file_size`, the bytes of `current`, the rotated files on
disk as (index, content) pairs in creation order, the retention deque, and
the append-only record of indices assigned by rotations so far. -/
structure RunState where
  buf : List Nat
  fileSize : Nat
  current : List Nat
  files : List (Nat × List Nat)
  indices : List Nat
  events : List Nat
deriving DecidableEq

/-- Capacity of the scratch read buffer. -/
def bufLen : Nat := 1024

/-- Initial rotator state: zeroed scratch buffer, the pre-existing
`current` content as the size counter's seed, and a seeded deque. -/
def initState (cur : List Nat) (indices0 : List Nat) : RunState :=
  { buf := List.replicate bufLen 0, fileSize := cur.length, current := cur,
    files := [], indices := indices0, events := [] }

/-- A `read` deposits the chunk at the front of the scratch buffer; bytes
beyond the read length keep their previous (stale) values. -/
def writeRead (buf chunk : List Nat) : List Nat :=
  chunk ++ buf.drop chunk.length

/-- Rotation as performed inside `run`: flush and close `current`, rename
it to the next numbered file, run retention cleanup (deleting the popped
files), and open a fresh empty `current`. -/
def rotateFs (cfg : Config) (st : RunState) : RunState :=
  let i := (next_index st.indices).1
  let cleaned := cleanup_old (next_index st.indices).2 cfg.toKeep (fun _ => true)
  let removed := cleaned.2.map Prod.fst
  { buf := st.buf, fileSize := st.fileSize, current := [],
    files := (st.files ++ [(i, st.current)]).filter (fun p => !(removed.contains p.1)),
    indices := cleaned.1,
    events := st.events ++ [i] }

/-- Result of one main-loop iteration: continue with a new state, or exit
with status 0 (the zero-length read). -/
inductive StepResult where
  | next : RunState → StepResult
  | exit0 : RunState → StepResult
deriving DecidableEq

/-- One iteration of the main loop of `run`, applied to the bytes just
read (`chunk`, the `sz` bytes). A zero-length read exits with status 0.
Otherwise the counter grows by `sz`; when it reaches the threshold, the
WHOLE 1024-byte scratch buffer is scanned for a newline and split there
(`buf.iter().position` followed by `buf.split_at(b + 1)`), exactly as in
the source; when no rotation happens, only the `sz` bytes just read are
written (`&buf[..sz]`). -/
def runStep (cfg : Config) (st : RunState) (chunk : List Nat) : StepResult :=
  if chunk.length = 0 then StepResult.exit0 st
  else
    let buf := writeRead st.buf chunk
    let fs := st.fileSize + chunk.length
    match (if cfg.sizeBytes ≤ fs then buf.findIdx? (fun b => b == newlineByte) else none) with
    | some b =>
      let second := buf.drop (b + 1)
      let st1 := rotateFs cfg
        { st with buf := buf, fileSize := fs, current := st.current ++ buf.take (b + 1) }
      StepResult.next { st1 with current := second, fileSize := second.length }
    | none =>
      StepResult.next { st with buf := buf, fileSize := fs,
                                current := st.current ++ buf.take chunk.length }

/-- Events recorded in a step result's state. -/
def eventsOf : StepResult → List Nat
  | StepResult.next st => st.events
  | StepResult.exit0 st => st.events

/-- Whether a step result is the clean exit. -/
def isExit0 : StepResult → Bool
  | StepResult.next _ => false
  | StepResult.exit0 _ => true

/-- Run the main loop over a list of read chunks, stopping early at a
zero-length read. -/
def runChunks (cfg : Config) : RunState → List (List Nat) → RunState
  | st, [] => st
  | st, c :: cs =>
    match runStep cfg st c with
    | StepResult.exit0 st1 => st1
    | StepResult.next st1 => runChunks cfg st1 cs

/-- Concatenation of all rotated files in index (= creation) order
followed by the content of `current`. -/
def concatOutput (st : RunState) : List Nat :=
  (st.files.map Prod.snd).flatten ++ st.current

/-- Startup path of `run`: rotate immediately iff `rotate-on-start` is set
and the pre-existing `current` is non-empty, in which case the size
counter resets to 0. Returns the new size counter, the deque, and the
indices of the numbered files created. -/
def startupStep (rot : Bool) (fs k : Nat) (l : List Nat) :
    Nat × List Nat × List Nat :=
  if rot && decide (0 < fs) then
    (0, (rotate_lm k l).2, [(rotate_lm k l).1])
  else (fs, l, [])

/-- Error kinds distinguished by `resolve_io`. -/
inductive IoKind where
  | interrupted : IoKind
  | wouldBlock : IoKind
  | other : IoKind
deriving DecidableEq

/-- Result of one attempt of the closure passed to `resolve_io`. -/
inductive IoResult (T : Type) where
  | ok : T → IoResult T
  | err : IoKind → IoResult T

/-- Outcome of `resolve_io` on a (finite prefix of a) sequence of
attempts: a value, `exit(1)`, or still retrying after every listed
attempt failed transiently. -/
inductive Resolved (T : Type) where
  | ok : T → Resolved T
  | exit1 : Resolved T
  | retrying : Resolved T

/-- Model of `resolve_io` over the successive results of its closure:
transient errors (`Interrupted`, `WouldBlock`) are skipped and the call
retried; any other error exits the process with status 1; a success is
returned. -/
def resolve_io {T : Type} : List (IoResult T) → Resolved T
  | [] => Resolved.retrying
  | IoResult.ok t :: _ => Resolved.ok t
  | IoResult.err IoKind.interrupted :: rest => resolve_io rest
  | IoResult.err IoKind.wouldBlock :: rest => resolve_io rest
  | IoResult.err IoKind.other :: _ => Resolved.exit1

/-- Retention-manager deques reachable from initialization over some
directory listing followed by any sequence of `next_index` and
`cleanup_old` calls. -/
inductive Reachable (pfx : List Nat) : List Nat → Prop where
  | init (listing : List (List Nat)) (l : List Nat) :
      lmNew listing pfx = Except.ok l → Reachable pfx l
  | next (l : List Nat) : Reachable pfx l → Reachable pfx (next_index l).2
  | clean (l : List Nat) (k : Nat) (res : Nat → Bool) :
      Reachable pfx l → Reachable pfx (cleanup_old l k res).1

/-- Restriction of `Reachable` to runs in which no `next_index` call
crosses the `u32` wrap boundary: each increment starts from a back value
below `u32::MAX`. Reachability with a wrap breaks sortedness (the wrapped
index 0 is pushed behind larger ones). -/
inductive ReachableNoWrap (pfx : List Nat) : List Nat → Prop where
  | init (listing : List (List Nat)) (l : List Nat) :
      lmNew listing pfx = Except.ok l → ReachableNoWrap pfx l
  | next (l : List Nat) (hb : l.getLast?.getD 0 + 1 < u32Size) :
      ReachableNoWrap pfx l → ReachableNoWrap pfx (next_index l).2
  | clean (l : List Nat) (k : Nat) (res : Nat → Bool) :
      ReachableNoWrap pfx l → ReachableNoWrap pfx (cleanup_old l k res).1

/-- Byte values of the string `app.`, the prefix of the worked examples. -/
def pfxApp : List Nat := [97, 112, 112, 46]

/-- The deque left by `cleanup_old` is the input with its front
`length - toKeep` elements removed, whatever the deletion outcomes. -/
theorem cleanup_old_fst (l : List Nat) (k : Nat) (res : Nat → Bool) :
    (cleanup_old l k res).1 = l.drop (l.length - k) := by
  induction l with
  | nil => simp [cleanup_old]
  | cons x rest ih =>
    by_cases h : rest.length + 1 > k
    · have hk : (x :: rest).length - k = (rest.length - k) + 1 := by
        simp only [List.length_cons]; omega
      simp only [cleanup_old, if_pos h, ih, hk, List.drop_succ_cons]
    · have hk : (x :: rest).length - k = 0 := by
        simp only [List.length_cons]; omega
      simp only [cleanup_old, if_neg h, hk, List.drop_zero]

/-- The deletion attempts of `cleanup_old` are exactly the front
`length - toKeep` elements, in pop order. -/
theorem cleanup_old_removed (l : List Nat) (k : Nat) (res : Nat → Bool) :
    ((cleanup_old l k res).2).map Prod.fst = l.take (l.length - k) := by
  induction l with
  | nil => simp [cleanup_old]
  | cons x rest ih =>
    by_cases h : rest.length + 1 > k
    · have hk : (x :: rest).length - k = (rest.length - k) + 1 := by
        simp only [List.length_cons]; omega
      simp only [cleanup_old, if_pos h, hk, List.map_cons, List.take_succ_cons, ih]
    · have hk : (x :: rest).length - k = 0 := by
        simp only [List.length_cons]; omega
      simp only [cleanup_old, if_neg h, hk, List.take_zero, List.map_nil]

/-- With a positive retention count, the index just assigned by a rotation
is still at the back of the deque afterwards. -/
theorem rotate_lm_getLast (k : Nat) (hk : 1 ≤ k) (l : List Nat) :
    ((rotate_lm k l).2).getLast? = some (rotate_lm k l).1 := by
  unfold rotate_lm next_index
  rw [cleanup_old_fst]
  rw [List.drop_append_of_le_length (by simp only [List.length_append,
    List.length_cons, List.length_nil]; omega)]
  exact List.getLast?_concat _

/-- With a positive retention count, and as long as the indices stay below
the `u32` wrap boundary (back of the initial deque plus the number of
rotations below `2 ^ 32`), successive rotation indices form a strictly
increasing chain. -/
theorem rotationIndices_chain (k : Nat) (hk : 1 ≤ k) :
    ∀ (n : Nat) (l : List Nat), l.getLast?.getD 0 + n < u32Size →
      List.Chain' (· < ·) (rotationIndices k n l) := by
  intro n
  induction n with
  | zero => intro l _; simp [rotationIndices]
  | succ m ih =>
    intro l hb
    have hv : (rotate_lm k l).1 = l.getLast?.getD 0 + 1 := by
      show (next_index l).1 = _
      simp only [next_index]
      exact Nat.mod_eq_of_lt (by omega)
    have hlast := rotate_lm_getLast k hk l
    have hb2 : ((rotate_lm k l).2).getLast?.getD 0 + m < u32Size := by
      rw [hlast]
      simp only [Option.getD_some]
      omega
    rw [rotationIndices]
    refine List.chain'_cons'.mpr ⟨?_, ih _ hb2⟩
    intro y hy
    cases m with
    | zero => simp [rotationIndices] at hy
    | succ m2 =>
      rw [rotationIndices] at hy
      simp only [List.head?_cons, Option.mem_def, Option.some.injEq] at hy
      have hy2 : y = (rotate_lm k l).1 + 1 := by
        rw [← hy]
        show (next_index (rotate_lm k l).2).1 = _
        simp only [next_index, hlast, Option.getD_some]
        exact Nat.mod_eq_of_lt (by omega)
      omega

/-- On a sorted list the fold with `Nat.max` computes the last element. -/
theorem pairwise_foldr_max (l : List Nat) (h : List.Pairwise (· ≤ ·) l) :
    l.foldr Nat.max 0 = l.getLast?.getD 0 := by
  induction l with
  | nil => rfl
  | cons x xs ih =>
    rcases List.pairwise_cons.mp h with ⟨hx, hxs⟩
    cases xs with
    | nil => simp
    | cons y ys =>
      have ihv := ih hxs
      have hne : (y :: ys) ≠ [] := by simp
      have hlast : (y :: ys).getLast? = some ((y :: ys).getLast hne) :=
        List.getLast?_eq_getLast _ hne
      have hxle : x ≤ (y :: ys).getLast hne := hx _ (List.getLast_mem hne)
      rw [List.getLast?_cons_cons, List.foldr_cons, ihv, hlast]
      simp only [Option.getD_some]
      exact Nat.max_eq_right hxle

/-- Dropping elements from the front preserves a sorted chain. -/
theorem chain'_le_drop (l : List Nat) (n : Nat)
    (h : List.Chain' (· ≤ ·) l) : List.Chain' (· ≤ ·) (l.drop n) := by
  induction n with
  | zero => simpa using h
  | succ m ih =>
    rw [← List.tail_drop]
    exact ih.tail

/-- C1 (evaluation at the failing input): with threshold 4 and an empty
initial `current`, a single 5-byte read `a b \n c d` containing one
newline rotates exactly once at the newline, but because the rotating
branch splits the WHOLE 1024-byte scratch buffer, the new `current`
receives the 1019 stale zero bytes after `c d`, so concatenating the
rotated file and `current` no longer reproduces the 5-byte input. -/
theorem c1_roundtrip_fails_eval :
    (runChunks ⟨4, 5⟩ (initState [] []) [[97, 98, 10, 99, 100]]).events = [1] ∧
    (runChunks ⟨4, 5⟩ (initState [] []) [[97, 98, 10, 99, 100]]).files.map Prod.snd
      = [[97, 98, 10]] ∧
    (runChunks ⟨4, 5⟩ (initState [] []) [[97, 98, 10, 99, 100]]).current
      = [99, 100] ++ List.replicate 1019 0 ∧
    concatOutput (runChunks ⟨4, 5⟩ (initState [] []) [[97, 98, 10, 99, 100]])
      ≠ [97, 98, 10, 99, 100] := by
  exact ⟨rfl, rfl, by decide, by decide⟩

/-- C2 (evaluation at the failing input): threshold 12, first read the ten
bytes `aaaaaaaaa\n` (no rotation, counter 10), then read the three bytes
`bbb` which contain no newline; the counter reaches 13 and the newline
scan over the WHOLE buffer finds the stale newline left at offset 9 by the
previous read, so a rotation happens on a read whose chunk has no
newline. -/
theorem c2_rotation_on_newline_free_read_eval :
    (¬ (10 : Nat) ∈ [98, 98, 98]) ∧
    (runChunks ⟨12, 5⟩ (initState [] []) [List.replicate 9 97 ++ [10]]).events = [] ∧
    (runChunks ⟨12, 5⟩ (initState [] [])
      [List.replicate 9 97 ++ [10], [98, 98, 98]]).events = [1] := by
  exact ⟨by decide, rfl, rfl⟩

/-- C3 (evaluation at the failing input): two loop states that agree on
everything, including the first 3 buffer bytes (the read length), and
differ only in the stale buffer contents beyond the read length, produce
different outcomes on the same newline-free 3-byte read `bbb`: the zeroed
buffer does not rotate while the buffer with a stale newline at offset 9
does, so the iteration depends on residual buffer contents. -/
theorem c3_stale_buffer_dependence_eval :
    (List.replicate 1024 (0 : Nat)).take 3 =
      (List.replicate 3 (0 : Nat) ++ List.replicate 6 97 ++ [10]
        ++ List.replicate 1014 0).take 3 ∧
    eventsOf (runStep ⟨12, 5⟩
      { buf := List.replicate 1024 0, fileSize := 10, current := [],
        files := [], indices := [], events := [] } [98, 98, 98]) = [] ∧
    eventsOf (runStep ⟨12, 5⟩
      { buf := List.replicate 3 0 ++ List.replicate 6 97 ++ [10]
          ++ List.replicate 1014 0,
        fileSize := 10, current := [], files := [], indices := [],
        events := [] } [98, 98, 98]) = [1] := by
  exact ⟨by decide, rfl, rfl⟩

/-- C4 (evaluation at the failing input): with prefix `app.`, the
directory entry `app.log` — whose name is shorter than the prefix plus
`.log` — makes `log_index` slice with a reversed range, a Rust panic,
instead of being silently ignored; a well-formed entry `app.1.log` parses
to index 1. -/
theorem c4_short_name_panics_eval :
    log_index [97, 112, 112, 46, 108, 111, 103] pfxApp = ScanResult.panic ∧
    log_index [97, 112, 112, 46, 49, 46, 108, 111, 103] pfxApp
      = ScanResult.ok (some 1) := by
  exact ⟨rfl, rfl⟩

/-- C5 counterexample: with retention count 0, `cleanup_old` empties the
deque on every rotation (it even pops the index just pushed), so two
successive rotations from an empty deque both assign index 1 — the
assigned indices are not strictly increasing. -/
theorem c5_not_increasing_when_keep_zero :
    rotationIndices 0 2 [] = [1, 1] ∧
    ¬ List.Pairwise (· < ·) (rotationIndices 0 2 []) := by
  exact ⟨rfl, by decide⟩

/-- C5 (amended): for every retention count of at least 1, every initial
deque, and every number of rotations that keeps the indices below the
`u32` wrap boundary (back of the deque plus rotation count below
`2 ^ 32`), each rotation's index is strictly greater than every index
assigned by an earlier rotation; at the boundary the `u32` increment
instead wraps to 0 (release) or panics (debug). -/
theorem c5_rotation_indices_strictly_increasing (k n : Nat) (l : List Nat)
    (hk : 1 ≤ k) (hb : l.getLast?.getD 0 + n < u32Size) :
    List.Pairwise (· < ·) (rotationIndices k n l) :=
  List.chain'_iff_pairwise.mp (rotationIndices_chain k hk n l hb)

/-- Witness for C5: three rotations with retention 1 from an empty deque
have strictly increasing indices. -/
theorem c5_rotation_indices_strictly_increasing_witness :
    List.Pairwise (· < ·) (rotationIndices 1 3 []) :=
  c5_rotation_indices_strictly_increasing 1 3 [] (by decide) (by decide)

/-- C6 counterexample: the deque `[4294967295]` (holding `u32::MAX`) is a
Retention Manager state, reachable by initializing over a listing with the
single entry `app.4294967295.log`; on it `next_index` wraps the `u32`
increment to 0 instead of returning one more than the maximum. -/
theorem c6_wraps_at_u32_max :
    Reachable pfxApp [4294967295] ∧
    (next_index [4294967295]).1 = 0 ∧
    (next_index [4294967295]).1 ≠ [4294967295].foldr Nat.max 0 + 1 :=
  ⟨Reachable.init
      [[97, 112, 112, 46, 52, 50, 57, 52, 57, 54, 55, 50, 57, 53, 46, 108,
        111, 103]] [4294967295] rfl,
   by decide, by decide⟩

/-- C6 (amended): on a sorted deque whose maximum is below `u32::MAX` (so
that the `u32` increment does not overflow), `next_index` returns one more
than the maximum known index (1 when the deque is empty, since the fold
then yields 0) and appends that value to the back; called twice from the
empty deque it returns 1 then 2 and leaves the deque `[1, 2]`. -/
theorem c6_next_index_returns_max_plus_one (l : List Nat)
    (h : List.Pairwise (· ≤ ·) l) (hb : l.foldr Nat.max 0 + 1 < u32Size) :
    (next_index l).1 = l.foldr Nat.max 0 + 1 ∧
    (next_index l).2 = l ++ [l.foldr Nat.max 0 + 1] ∧
    next_index [] = (1, [1]) ∧
    next_index (next_index []).2 = (2, [1, 2]) := by
  have hm := pairwise_foldr_max l h
  have hmod : (l.getLast?.getD 0 + 1) % u32Size = l.getLast?.getD 0 + 1 :=
    Nat.mod_eq_of_lt (by rw [hm] at hb; omega)
  exact ⟨by simp [next_index, hm, hmod], by simp [next_index, hm, hmod],
    by decide, by decide⟩

/-- Witness for C6: on the sorted deque `[1, 2]` the next index is 3. -/
theorem c6_next_index_returns_max_plus_one_witness :
    (next_index [1, 2]).1 = 3 :=
  (c6_next_index_returns_max_plus_one [1, 2] (by decide) (by decide)).1.trans
    (by decide)

/-- C7: `cleanup_old` removes elements from the front until at most
`toKeep` remain, attempts a deletion for exactly the removed indices (in
order), and the deletion outcomes never influence the resulting deque —
a failed deletion is swallowed; on `[1, 2, 3, 4]` with `toKeep = 2` the
deque becomes `[3, 4]` with deletions attempted for 1 and 2. -/
theorem c7_cleanup_old_drops_front_swallows_failures (l : List Nat) (k : Nat)
    (res res2 : Nat → Bool) :
    (cleanup_old l k res).1 = l.drop (l.length - k) ∧
    ((cleanup_old l k res).2).map Prod.fst = l.take (l.length - k) ∧
    (cleanup_old l k res).1 = (cleanup_old l k res2).1 ∧
    (cleanup_old [1, 2, 3, 4] 2 res).1 = [3, 4] ∧
    ((cleanup_old [1, 2, 3, 4] 2 res).2).map Prod.fst = [1, 2] :=
  ⟨cleanup_old_fst l k res, cleanup_old_removed l k res,
   (cleanup_old_fst l k res).trans (cleanup_old_fst l k res2).symm, rfl, rfl⟩

/-- C8: the startup path rotates exactly once if and only if
rotate-on-start is set and the pre-existing `current` is non-empty, in
which case the size counter resets to 0; an empty `current` (or an unset
flag) creates no numbered file and leaves the state unchanged. -/
theorem c8_rotate_on_start_iff_nonempty (rot : Bool) (fs k : Nat)
    (l : List Nat) :
    ((startupStep rot fs k l).2.2 ≠ [] ↔ (rot = true ∧ 0 < fs)) ∧
    (startupStep rot fs k l).2.2.length ≤ 1 ∧
    (startupStep rot fs k l).1 = (if rot && decide (0 < fs) then 0 else fs) ∧
    startupStep rot 0 k l = (0, l, []) ∧
    startupStep true 5 5 [] = (0, [1], [1]) := by
  refine ⟨?_, ?_, ?_, ?_, rfl⟩ <;> cases rot <;> cases fs <;> simp [startupStep]

/-- Witness for C8: rotate-on-start with a 5-byte pre-existing `current`
and an empty deque creates exactly the numbered file 1 and resets the
counter to 0. -/
theorem c8_rotate_on_start_iff_nonempty_witness :
    startupStep true 5 5 [] = (0, [1], [1]) :=
  (c8_rotate_on_start_iff_nonempty true 5 5 []).2.2.2.2

/-- C9 counterexample: the `remove_file` calls of retention cleanup are
I/O operations reached from the main loop whose errors are neither
retried nor fatal: deleting the file of index 1 fails (`false`, e.g. a
`NotFound` error, not a transient kind), yet `cleanup_old` returns its
new deque normally — the process does not terminate with status 1. -/
theorem c9_deletion_failure_not_fatal :
    cleanup_old [1] 0 (fun _ => false) = ([], [(1, false)]) := rfl

/-- C9 (amended): every I/O operation performed through `resolve_io`
retries transient errors (`Interrupted`, `WouldBlock`) indefinitely and
exits with status 1 on any other error kind; a zero-length read is the
only clean termination of the loop and exits with status 0; the only
exception is the best-effort file deletion of retention cleanup, whose
failures are swallowed without affecting the deque. -/
theorem c9_resolve_io_policy (T : Type) (t : T) (rest : List (IoResult T))
    (n : Nat) (cfg : Config) (st : RunState) (chunk : List Nat)
    (l : List Nat) (k : Nat) (res res2 : Nat → Bool) :
    resolve_io (IoResult.err IoKind.interrupted :: rest) = resolve_io rest ∧
    resolve_io (IoResult.err IoKind.wouldBlock :: rest) = resolve_io rest ∧
    resolve_io (IoResult.ok t :: rest) = Resolved.ok t ∧
    resolve_io (IoResult.err IoKind.other :: rest) = Resolved.exit1 ∧
    resolve_io (List.replicate n (IoResult.err IoKind.interrupted)
      : List (IoResult T)) = Resolved.retrying ∧
    (isExit0 (runStep cfg st chunk) = true ↔ chunk = []) ∧
    (cleanup_old l k res).1 = (cleanup_old l k res2).1 := by
  refine ⟨rfl, rfl, rfl, rfl, ?_, ?_,
    (cleanup_old_fst l k res).trans (cleanup_old_fst l k res2).symm⟩
  · induction n with
    | zero => rfl
    | succ m ih =>
      rw [List.replicate_succ]
      exact ih
  · cases chunk with
    | nil => simp [runStep, isExit0]
    | cons a as =>
      simp only [runStep, List.length_cons]
      rw [if_neg (Nat.succ_ne_zero as.length)]
      constructor
      · intro hcontra
        exfalso
        revert hcontra
        split <;> simp [isExit0]
      · intro hcontra
        exact absurd hcontra (List.cons_ne_nil a as)

/-- Witness for C9: a zero-length read exits the loop with status 0. -/
theorem c9_resolve_io_policy_witness :
    isExit0 (runStep ⟨10, 5⟩ (initState [] []) []) = true :=
  (c9_resolve_io_policy Nat 0 [] 0 ⟨10, 5⟩ (initState [] []) [] [] 0
    (fun _ => true) (fun _ => true)).2.2.2.2.2.1.mpr rfl

/-- C10 counterexample: the distinct directory entries `app.01.log` and
`app.1.log` both parse to index 1 under prefix `app.`, so initialization
over that listing is reachable and yields the duplicated deque `[1, 1]`. -/
theorem c10_duplicates_from_init :
    Reachable pfxApp [1, 1] ∧ ¬ ([1, 1] : List Nat).Nodup :=
  ⟨Reachable.init
      [[97, 112, 112, 46, 48, 49, 46, 108, 111, 103],
       [97, 112, 112, 46, 49, 46, 108, 111, 103]] [1, 1] rfl,
   by decide⟩

/-- C10 (amended): every deque reachable by initialization over any
directory listing followed by any sequence of `next_index` and
`cleanup_old` calls in which no `u32` increment wraps is sorted
non-decreasing (duplicates are possible only when distinct entries of the
initial listing parse to the same index; a wrapping increment, reachable
from a scanned `u32::MAX`-valued entry, pushes 0 behind larger indices
and breaks sortedness, see `reachable_wrap_unsorted`). -/
theorem c10_reachable_sorted (pfx l : List Nat) (h : ReachableNoWrap pfx l) :
    List.Chain' (· ≤ ·) l := by
  induction h with
  | init listing l0 hinit =>
    unfold lmNew at hinit
    cases hscan : scanListing listing pfx with
    | error e =>
      rw [hscan] at hinit
      exact absurd hinit (by simp)
    | ok s =>
      rw [hscan] at hinit
      have hs : List.insertionSort (· ≤ ·) s = l0 := by
        simpa using hinit
      rw [← hs]
      exact (List.sorted_insertionSort (· ≤ ·) s).chain'
  | next l0 hb _ ih =>
    unfold next_index
    refine List.chain'_append.mpr ⟨ih, by simp, ?_⟩
    intro x hx y hy
    simp only [List.head?_cons, Option.mem_def, Option.some.injEq] at hy
    have hgd : l0.getLast?.getD 0 = x := by
      rw [Option.mem_def.mp hx]
      rfl
    have hmod : (l0.getLast?.getD 0 + 1) % u32Size = l0.getLast?.getD 0 + 1 :=
      Nat.mod_eq_of_lt hb
    omega
  | clean l0 k res _ ih =>
    rw [cleanup_old_fst]
    exact chain'_le_drop _ _ ih

/-- Witness for C10: the deque `[1, 2]`, reachable by initializing over
the listing `app.1.log`, `app.2.log`, is sorted non-decreasing. -/
theorem c10_reachable_sorted_witness :
    List.Chain' (· ≤ ·) ([1, 2] : List Nat) :=
  c10_reachable_sorted pfxApp [1, 2]
    (ReachableNoWrap.init
      [[97, 112, 112, 46, 49, 46, 108, 111, 103],
       [97, 112, 112, 46, 50, 46, 108, 111, 103]] [1, 2] rfl)

/-- At the `u32` boundary full reachability contains unsorted deques: a
scanned entry `app.4294967294.log` followed by two rotations pushes
`4294967295` and then the wrapped index 0. -/
theorem reachable_wrap_unsorted :
    Reachable pfxApp [4294967294, 4294967295, 0] ∧
    ¬ List.Chain' (· ≤ ·) ([4294967294, 4294967295, 0] : List Nat) := by
  constructor
  · have h0 : Reachable pfxApp [4294967294] :=
      Reachable.init
        [[97, 112, 112, 46, 52, 50, 57, 52, 57, 54, 55, 50, 57, 52, 46,
          108, 111, 103]] [4294967294] rfl
    have h1 := Reachable.next _ h0
    have e1 : (next_index [4294967294]).2 = [4294967294, 4294967295] := by
      decide
    rw [e1] at h1
    have h2 := Reachable.next _ h1
    have e2 : (next_index [4294967294, 4294967295]).2
        = [4294967294, 4294967295, 0] := by
      decide
    rw [e2] at h2
    exact h2
  · intro hcontra
    have hle : (4294967295 : Nat) ≤ 0 :=
      (List.chain'_cons.mp (List.chain'_cons.mp hcontra).2).1
    omega

end Rollout
